import Mathlib

/-!
Verification of the BufferCursor library (src/src/buffercursor.ts,
src/src/overflowError.ts).

The backing memory is modelled as a global byte store (`Store`, a list of
bytes); a Node `Buffer` object is a view `(off, len)` into that store, so
`subarray` views and sliced cursors genuinely alias the same bytes.  A
`BufferCursor` is such a view together with the mutable `pos` field of the
TypeScript class.  Machine numbers are `Int`/`Nat` with explicit `% 2 ^ w`
where overflow matters.  The Node `Buffer` primitives the class delegates to
(`readUInt16BE`, `write`, `copy`, `fill`, `subarray`, `toString`, ...) are
modelled from their documented clamping/validation behaviour.  JavaScript
exceptions become an explicit error type; each method returns its result
together with the store and cursor state at the moment of return or throw,
so that partial mutation before a throw is observable.
-/

/-- The shared backing memory: a list of bytes (each stored value is kept
below 256 by masking on write, as Node buffers do). -/
abbrev Store := List Nat

/-- Read one byte of the store (reads outside the allocation yield 0; the
operations proved about never rely on such reads). -/
def storeGet : Store → Nat → Nat
  | [], _ => 0
  | b :: _, 0 => b
  | _ :: s, j + 1 => storeGet s j

/-- Write one byte of the store; out-of-range writes are dropped (they
cannot happen through a `Buffer` view, which is always backed). -/
def storeSet : Store → Nat → Nat → Store
  | [], _, _ => []
  | _ :: s, 0, v => v :: s
  | b :: s, j + 1, v => b :: storeSet s j v

/-- Write a list of bytes starting at index `i`, masking each to a byte. -/
def storeWrite (s : Store) (i : Nat) : List Nat → Store
  | [] => s
  | b :: bs => storeWrite (storeSet s i (b % 256)) (i + 1) bs

/-- Read `w` consecutive bytes starting at index `i`. -/
def readBytes (s : Store) : Nat → Nat → List Nat
  | _, 0 => []
  | i, w + 1 => storeGet s i :: readBytes s (i + 1) w

theorem storeSet_length (s : Store) (i v : Nat) :
    (storeSet s i v).length = s.length := by
  induction s generalizing i with
  | nil => rfl
  | cons b s ih =>
    cases i with
    | zero => rfl
    | succ j => simpa [storeSet] using ih j

theorem storeWrite_length (bs : List Nat) (s : Store) (i : Nat) :
    (storeWrite s i bs).length = s.length := by
  induction bs generalizing s i with
  | nil => rfl
  | cons b bs ih => simpa [storeWrite, storeSet_length] using ih (storeSet s i (b % 256)) (i + 1)

theorem storeGet_storeSet_eq (s : Store) (i v : Nat) (h : i < s.length) :
    storeGet (storeSet s i v) i = v := by
  induction s generalizing i with
  | nil => simp at h
  | cons b s ih =>
    cases i with
    | zero => rfl
    | succ j =>
      simp only [List.length_cons] at h
      simpa [storeSet, storeGet] using ih j (by omega)

theorem storeGet_storeSet_ne (s : Store) (i j v : Nat) (h : i ≠ j) :
    storeGet (storeSet s i v) j = storeGet s j := by
  induction s generalizing i j with
  | nil => cases i <;> rfl
  | cons b s ih =>
    cases i with
    | zero => cases j with
      | zero => exact absurd rfl h
      | succ j' => rfl
    | succ i' => cases j with
      | zero => rfl
      | succ j' => simpa [storeSet, storeGet] using ih i' j' (by omega)

theorem storeGet_storeWrite_lo (bs : List Nat) (s : Store) (i j : Nat) (h : j < i) :
    storeGet (storeWrite s i bs) j = storeGet s j := by
  induction bs generalizing s i with
  | nil => rfl
  | cons b bs ih =>
    simp only [storeWrite]
    rw [ih (storeSet s i (b % 256)) (i + 1) (by omega),
      storeGet_storeSet_ne s i j (b % 256) (by omega)]

theorem storeGet_storeWrite_hi (bs : List Nat) (s : Store) (i j : Nat)
    (h : i + bs.length ≤ j) : storeGet (storeWrite s i bs) j = storeGet s j := by
  induction bs generalizing s i with
  | nil => rfl
  | cons b bs ih =>
    simp only [List.length_cons] at h
    simp only [storeWrite]
    rw [ih (storeSet s i (b % 256)) (i + 1) (by omega),
      storeGet_storeSet_ne s i j (b % 256) (by omega)]

theorem readBytes_storeWrite (bs : List Nat) (s : Store) (i : Nat)
    (h : i + bs.length ≤ s.length) :
    readBytes (storeWrite s i bs) i bs.length = bs.map (fun b => b % 256) := by
  induction bs generalizing s i with
  | nil => rfl
  | cons b bs ih =>
    simp only [List.length_cons] at h
    simp only [storeWrite, List.length_cons, readBytes, List.map_cons]
    rw [storeGet_storeWrite_lo bs _ (i + 1) i (by omega),
      storeGet_storeSet_eq s i (b % 256) (by omega),
      ih (storeSet s i (b % 256)) (i + 1) (by rw [storeSet_length]; omega)]

theorem readBytes_storeWrite_disjoint (w : Nat) (bs : List Nat) (s : Store) (i j : Nat)
    (h : j + w ≤ i) : readBytes (storeWrite s i bs) j w = readBytes s j w := by
  induction w generalizing j with
  | zero => rfl
  | succ w ih =>
    simp only [readBytes]
    rw [storeGet_storeWrite_lo bs s i j (by omega), ih (j + 1) (by omega)]

theorem readBytes_length (s : Store) (i w : Nat) : (readBytes s i w).length = w := by
  induction w generalizing i with
  | zero => rfl
  | succ w ih => simpa [readBytes] using ih (i + 1)

/-- Little-endian base-256 digits of a natural number, `w` bytes. -/
def natToBytesLE : Nat → Nat → List Nat
  | 0, _ => []
  | w + 1, v => v % 256 :: natToBytesLE w (v / 256)

/-- Recompose a little-endian byte list into a natural number (each byte
masked to 8 bits, as the byte layout guarantees). -/
def bytesToNatLE : List Nat → Nat
  | [] => 0
  | b :: bs => b % 256 + 256 * bytesToNatLE bs

theorem natToBytesLE_length (w v : Nat) : (natToBytesLE w v).length = w := by
  induction w generalizing v with
  | zero => rfl
  | succ w ih => simpa [natToBytesLE] using ih (v / 256)

theorem bytesToNatLE_map_mod (bs : List Nat) :
    bytesToNatLE (bs.map (fun b => b % 256)) = bytesToNatLE bs := by
  induction bs with
  | nil => rfl
  | cons b bs ih => simp only [List.map_cons, bytesToNatLE, ih]; omega

theorem bytesToNatLE_natToBytesLE (w v : Nat) :
    bytesToNatLE (natToBytesLE w v) = v % 256 ^ w := by
  induction w generalizing v with
  | zero => simp [natToBytesLE, bytesToNatLE, Nat.mod_one]
  | succ w ih =>
    simp only [natToBytesLE, bytesToNatLE, ih]
    obtain ⟨q, r, hr, rfl⟩ : ∃ q r, r < 256 ∧ v = 256 * q + r :=
      ⟨v / 256, v % 256, Nat.mod_lt _ (by omega), by omega⟩
    have hq : (256 * q + r) / 256 = q := by omega
    have hrm : (256 * q + r) % 256 = r := by omega
    rw [hq, hrm]
    obtain ⟨k, m, hm, rfl⟩ : ∃ k m, m < 256 ^ w ∧ q = 256 ^ w * k + m :=
      ⟨q / 256 ^ w, q % 256 ^ w, Nat.mod_lt _ (Nat.pos_pow_of_pos _ (by omega)),
        (Nat.div_add_mod q (256 ^ w)).symm⟩
    have hmm : (256 ^ w * k + m) % 256 ^ w = m := by
      rw [Nat.mul_add_mod, Nat.mod_eq_of_lt hm]
    rw [hmm, pow_succ]
    have hsplit : 256 * (256 ^ w * k + m) + r = (256 * m + r) + (256 ^ w * 256) * k := by
      ring
    rw [hsplit, Nat.add_mul_mod_self_left]
    have hlt : 256 * m + r < 256 ^ w * 256 := by omega
    rw [Nat.mod_eq_of_lt hlt]
    omega

/-- The fixed-width numeric types of the typed accessors: unsigned and
signed integers of 8/16/32/64 bits, and IEEE-754 float32/float64.  A float
accessor moves the 4- resp. 8-byte IEEE-754 pattern between the value and
the buffer using the integer byte order of the requested endianness, so
float values are modelled by their bit patterns (integers below `2 ^ 32`
resp. `2 ^ 64`). -/
inductive NumType
  | u8 | i8 | u16 | i16 | u32 | i32 | u64 | i64 | f32 | f64
deriving DecidableEq

inductive Endian
  | le | be
deriving DecidableEq

/-- Width in bytes of each typed accessor. -/
def NumType.width : NumType → Nat
  | .u8 | .i8 => 1
  | .u16 | .i16 => 2
  | .u32 | .i32 | .f32 => 4
  | .u64 | .i64 | .f64 => 8

/-- Whether the accessor decodes as a two's-complement signed integer. -/
def NumType.signed : NumType → Bool
  | .i8 | .i16 | .i32 | .i64 => true
  | _ => false

theorem NumType.width_pos (t : NumType) : 1 ≤ t.width := by
  cases t <;> decide

/-- The value range Node's `Buffer` write accessors validate before
mutating (ERR_OUT_OF_RANGE outside it). -/
def NumType.inRange (t : NumType) (v : Int) : Prop :=
  if t.signed then -(2 ^ (8 * t.width - 1) : Int) ≤ v ∧ v < 2 ^ (8 * t.width - 1)
  else 0 ≤ v ∧ v < 2 ^ (8 * t.width)

instance (t : NumType) (v : Int) : Decidable (t.inRange v) := by
  unfold NumType.inRange
  split <;> exact inferInstance

/-- Byte serialization of a value: little-endian base-256 digits of the
value's `width`-byte two's-complement / unsigned pattern, reversed for
big-endian. -/
def encodeNum (t : NumType) (e : Endian) (v : Int) : List Nat :=
  let le := natToBytesLE t.width (v % (2 ^ (8 * t.width) : Int)).toNat
  match e with
  | .le => le
  | .be => le.reverse

/-- Byte deserialization: recompose the bytes in the given endianness and
reinterpret as signed when the type is signed. -/
def decodeNum (t : NumType) (e : Endian) (bs : List Nat) : Int :=
  let le := match e with | .le => bs | .be => bs.reverse
  let u := bytesToNatLE le
  if t.signed = true ∧ 2 ^ (8 * t.width - 1) ≤ u then (u : Int) - 2 ^ (8 * t.width) else (u : Int)

theorem encodeNum_length (t : NumType) (e : Endian) (v : Int) :
    (encodeNum t e v).length = t.width := by
  cases e <;> simp [encodeNum, natToBytesLE_length]

theorem decodeNum_encodeNum (t : NumType) (e : Endian) (v : Int) (h : t.inRange v) :
    decodeNum t e ((encodeNum t e v).map (fun b => b % 256)) = v := by
  have hw1 : 1 ≤ t.width := t.width_pos
  have hMpos : (0 : Int) < 2 ^ (8 * t.width) := by positivity
  have hBM : ((256 ^ t.width : Nat) : Int) = 2 ^ (8 * t.width) := by
    push_cast
    rw [show (256 : Int) = 2 ^ 8 by norm_num, ← pow_mul]
  have hhalf : (2 : Int) ^ (8 * t.width) = 2 ^ (8 * t.width - 1) * 2 := by
    rw [← pow_succ, show 8 * t.width - 1 + 1 = 8 * t.width by omega]
  have hhalfN : (((2 ^ (8 * t.width - 1) : Nat)) : Int) = 2 ^ (8 * t.width - 1) := by
    push_cast
    rfl
  have hkey : ∀ u : Nat,
      bytesToNatLE ((natToBytesLE t.width u).map (fun b => b % 256)) = u % 256 ^ t.width := by
    intro u
    rw [bytesToNatLE_map_mod, bytesToNatLE_natToBytesLE]
  have hred : decodeNum t e ((encodeNum t e v).map (fun b => b % 256)) =
      (if t.signed = true ∧
          2 ^ (8 * t.width - 1) ≤ (v % (2 ^ (8 * t.width) : Int)).toNat % 256 ^ t.width
       then (((v % (2 ^ (8 * t.width) : Int)).toNat % 256 ^ t.width : Nat) : Int)
            - 2 ^ (8 * t.width)
       else (((v % (2 ^ (8 * t.width) : Int)).toNat % 256 ^ t.width : Nat) : Int)) := by
    cases e with
    | le => simp only [decodeNum, encodeNum, hkey]
    | be => simp only [decodeNum, encodeNum, List.map_reverse, List.reverse_reverse, hkey]
  have huI : (((v % (2 ^ (8 * t.width) : Int)).toNat : Nat) : Int) = v % 2 ^ (8 * t.width) :=
    Int.toNat_of_nonneg (Int.emod_nonneg v (by omega))
  have hultB : (v % (2 ^ (8 * t.width) : Int)).toNat < 256 ^ t.width := by
    have h1 : v % (2 ^ (8 * t.width) : Int) < 2 ^ (8 * t.width) := Int.emod_lt_of_pos v hMpos
    omega
  rw [hred, Nat.mod_eq_of_lt hultB]
  by_cases hs : t.signed = true
  · rw [NumType.inRange, if_pos (by simp [hs])] at h
    by_cases hv0 : (0 : Int) ≤ v
    · have hvM : v % (2 ^ (8 * t.width) : Int) = v :=
        Int.emod_eq_of_lt hv0 (by omega)
      rw [if_neg (by
        rintro ⟨-, hcond⟩
        have : (2 : Int) ^ (8 * t.width - 1) ≤ v := by omega
        omega)]
      omega
    · have h1 : (v + 2 ^ (8 * t.width)) % (2 ^ (8 * t.width) : Int) = v % 2 ^ (8 * t.width) := by
        rw [show v + 2 ^ (8 * t.width) = v + 2 ^ (8 * t.width) * 1 by ring,
          Int.add_mul_emod_self_left]
      have h2 : (v + 2 ^ (8 * t.width)) % (2 ^ (8 * t.width) : Int) = v + 2 ^ (8 * t.width) :=
        Int.emod_eq_of_lt (by omega) (by omega)
      have hvM : v % (2 ^ (8 * t.width) : Int) = v + 2 ^ (8 * t.width) := by
        rw [← h1, h2]
      rw [if_pos ⟨hs, by omega⟩]
      omega
  · rw [NumType.inRange, if_neg (by simp [hs])] at h
    have hvM : v % (2 ^ (8 * t.width) : Int) = v := Int.emod_eq_of_lt h.1 h.2
    rw [if_neg (by rintro ⟨hc, -⟩; exact hs hc)]
    omega

/-- The JavaScript exceptions thrown by the class and by the Node `Buffer`
primitives it delegates to.  `overflow` is `OverflowError(this.length,
this.pos, size)` from src/src/overflowError.ts; the four `range*`
constructors are the four distinct `RangeError` messages of `move` and
`seek`; `nodeOutOfRange` stands for Node's `ERR_OUT_OF_RANGE` thrown by a
`Buffer` primitive's own argument validation. -/
inductive JsError
  | overflow (length pos size : Int)
  | rangeMoveBeforeStart
  | rangeMoveBeyond
  | rangeSeekBeforeStart
  | rangeSeekBeyond
  | nodeOutOfRange
deriving DecidableEq

/-- The `BufferCursor` class state: `this.buffer` is the view of the global
store at `[off, off + len)`, `len` is the immutable `this.length` (equal to
the view's length, line 24), and `pos` is the mutable `this.pos`.
JavaScript numbers holding positions and sizes are modelled as `Int`. -/
structure BufferCursor where
  off : Nat
  len : Nat
  pos : Int
deriving DecidableEq

/-- Result of one method call: the returned value or thrown exception,
together with the store and cursor fields at the moment the call ended, so
that mutation happening before a throw stays observable. -/
structure MRes (α : Type) where
  val : Except JsError α
  store : Store
  cur : BufferCursor

namespace BufferCursor

/-- `checkMove` (buffercursor.ts line 32): throws `OverflowError(length,
pos, size)` iff `size > this.length || this.length - this.pos < size`. -/
def checkMove (c : BufferCursor) (size : Int) : Option JsError :=
  if size > (c.len : Int) ∨ (c.len : Int) - c.pos < size then
    some (.overflow c.len c.pos size)
  else none

/-- `move` (line 57): range-checks `pos + step` before assigning it. -/
def move (c : BufferCursor) (step : Int) : Except JsError BufferCursor :=
  let pos := c.pos + step
  if pos < 0 then .error .rangeMoveBeforeStart
  else if pos > (c.len : Int) then .error .rangeMoveBeyond
  else .ok { c with pos := pos }

/-- `seek` (line 81): range-checks `pos` before assigning it. -/
def seek (c : BufferCursor) (pos : Int) : Except JsError BufferCursor :=
  if pos < 0 then .error .rangeSeekBeforeStart
  else if pos > (c.len : Int) then .error .rangeSeekBeyond
  else .ok { c with pos := pos }

/-- `eof` (line 93): `this.pos == this.length`. -/
def eof (c : BufferCursor) : Bool := c.pos == (c.len : Int)

/-- `tell` (line 102). -/
def tell (c : BufferCursor) : Int := c.pos

/-- Node `buffer.read<Type>(offset)`: validates `0 <= offset` and
`offset + width <= len` (ERR_OUT_OF_RANGE otherwise), then decodes the
`width` bytes at `offset` in the view. -/
def bufferReadNum (t : NumType) (e : Endian) (s : Store) (off len : Nat)
    (offset : Int) : Except JsError Int :=
  if 0 ≤ offset ∧ offset + t.width ≤ (len : Int) then
    .ok (decodeNum t e (readBytes s (off + offset.toNat) t.width))
  else .error .nodeOutOfRange

/-- Node `buffer.write<Type>(value, offset)`: validates the value range and
the offset before mutating anything. -/
def bufferWriteNum (t : NumType) (e : Endian) (s : Store) (off len : Nat)
    (v : Int) (offset : Int) : Except JsError Store :=
  if ¬ t.inRange v then .error .nodeOutOfRange
  else if 0 ≤ offset ∧ offset + t.width ≤ (len : Int) then
    .ok (storeWrite s (off + offset.toNat) (encodeNum t e v))
  else .error .nodeOutOfRange

/-- The `safeMove` pattern shared by every typed read accessor (lines 45-50
with 207-362): `checkMove(width)`, then the Node read at `this.pos`, then
`move(width)`. -/
def readNum (t : NumType) (e : Endian) (s : Store) (c : BufferCursor) : MRes Int :=
  match checkMove c t.width with
  | some err => ⟨.error err, s, c⟩
  | none =>
    match bufferReadNum t e s c.off c.len c.pos with
    | .error err => ⟨.error err, s, c⟩
    | .ok v =>
      match move c t.width with
      | .error err => ⟨.error err, s, c⟩
      | .ok c' => ⟨.ok v, s, c'⟩

/-- The `safeMove` pattern shared by every typed write accessor (lines
45-50 with 370-560): `checkMove(width)`, then the Node write at `this.pos`,
then `move(width)`. -/
def writeNum (t : NumType) (e : Endian) (s : Store) (c : BufferCursor) (v : Int) : MRes Unit :=
  match checkMove c t.width with
  | some err => ⟨.error err, s, c⟩
  | none =>
    match bufferWriteNum t e s c.off c.len v c.pos with
    | .error err => ⟨.error err, s, c⟩
    | .ok s' =>
      match move c t.width with
      | .error err => ⟨.error err, s', c⟩
      | .ok c' => ⟨.ok (), s', c'⟩

/-- `readUInt8` (line 207); at width 1 both byte orders coincide. -/
def readUInt8 (s : Store) (c : BufferCursor) : MRes Int := readNum .u8 .le s c

/-- `readInt8` (line 216). -/
def readInt8 (s : Store) (c : BufferCursor) : MRes Int := readNum .i8 .le s c

/-- `readInt16BE` (line 225). -/
def readInt16BE (s : Store) (c : BufferCursor) : MRes Int := readNum .i16 .be s c

/-- `readInt16LE` (line 234). -/
def readInt16LE (s : Store) (c : BufferCursor) : MRes Int := readNum .i16 .le s c

/-- `readUInt16BE` (line 243). -/
def readUInt16BE (s : Store) (c : BufferCursor) : MRes Int := readNum .u16 .be s c

/-- `readUInt16LE` (line 252). -/
def readUInt16LE (s : Store) (c : BufferCursor) : MRes Int := readNum .u16 .le s c

/-- `readUInt32LE` (line 261). -/
def readUInt32LE (s : Store) (c : BufferCursor) : MRes Int := readNum .u32 .le s c

/-- `readUInt32BE` (line 270). -/
def readUInt32BE (s : Store) (c : BufferCursor) : MRes Int := readNum .u32 .be s c

/-- `readInt32LE` (line 279). -/
def readInt32LE (s : Store) (c : BufferCursor) : MRes Int := readNum .i32 .le s c

/-- `readInt32BE` (line 288). -/
def readInt32BE (s : Store) (c : BufferCursor) : MRes Int := readNum .i32 .be s c

/-- `readBigUInt64LE` (line 297); JS bigints are `Int` here. -/
def readBigUInt64LE (s : Store) (c : BufferCursor) : MRes Int := readNum .u64 .le s c

/-- `readBigUInt64BE` (line 306). -/
def readBigUInt64BE (s : Store) (c : BufferCursor) : MRes Int := readNum .u64 .be s c

/-- `readBigInt64LE` (line 315). -/
def readBigInt64LE (s : Store) (c : BufferCursor) : MRes Int := readNum .i64 .le s c

/-- `readBigInt64BE` (line 324). -/
def readBigInt64BE (s : Store) (c : BufferCursor) : MRes Int := readNum .i64 .be s c

/-- `readFloatBE` (line 333); the value is the float32 bit pattern. -/
def readFloatBE (s : Store) (c : BufferCursor) : MRes Int := readNum .f32 .be s c

/-- `readFloatLE` (line 342). -/
def readFloatLE (s : Store) (c : BufferCursor) : MRes Int := readNum .f32 .le s c

/-- `readDoubleBE` (line 351); the value is the float64 bit pattern. -/
def readDoubleBE (s : Store) (c : BufferCursor) : MRes Int := readNum .f64 .be s c

/-- `readDoubleLE` (line 360). -/
def readDoubleLE (s : Store) (c : BufferCursor) : MRes Int := readNum .f64 .le s c

/-- `writeUInt8` (line 370). -/
def writeUInt8 (s : Store) (c : BufferCursor) (v : Int) : MRes Unit := writeNum .u8 .le s c v

/-- `writeInt8` (line 381). -/
def writeInt8 (s : Store) (c : BufferCursor) (v : Int) : MRes Unit := writeNum .i8 .le s c v

/-- `writeUInt16BE` (line 392). -/
def writeUInt16BE (s : Store) (c : BufferCursor) (v : Int) : MRes Unit := writeNum .u16 .be s c v

/-- `writeUInt16LE` (line 403). -/
def writeUInt16LE (s : Store) (c : BufferCursor) (v : Int) : MRes Unit := writeNum .u16 .le s c v

/-- `writeInt16BE` (line 414). -/
def writeInt16BE (s : Store) (c : BufferCursor) (v : Int) : MRes Unit := writeNum .i16 .be s c v

/-- `writeInt16LE` (line 425). -/
def writeInt16LE (s : Store) (c : BufferCursor) (v : Int) : MRes Unit := writeNum .i16 .le s c v

/-- `writeUInt32BE` (line 436). -/
def writeUInt32BE (s : Store) (c : BufferCursor) (v : Int) : MRes Unit := writeNum .u32 .be s c v

/-- `writeUInt32LE` (line 447). -/
def writeUInt32LE (s : Store) (c : BufferCursor) (v : Int) : MRes Unit := writeNum .u32 .le s c v

/-- `writeInt32BE` (line 458). -/
def writeInt32BE (s : Store) (c : BufferCursor) (v : Int) : MRes Unit := writeNum .i32 .be s c v

/-- `writeInt32LE` (line 469). -/
def writeInt32LE (s : Store) (c : BufferCursor) (v : Int) : MRes Unit := writeNum .i32 .le s c v

/-- `writeBigUInt64LE` (line 480). -/
def writeBigUInt64LE (s : Store) (c : BufferCursor) (v : Int) : MRes Unit := writeNum .u64 .le s c v

/-- `writeBigUInt64BE` (line 491). -/
def writeBigUInt64BE (s : Store) (c : BufferCursor) (v : Int) : MRes Unit := writeNum .u64 .be s c v

/-- `writeBigInt64LE` (line 502). -/
def writeBigInt64LE (s : Store) (c : BufferCursor) (v : Int) : MRes Unit := writeNum .i64 .le s c v

/-- `writeBigInt64BE` (line 513). -/
def writeBigInt64BE (s : Store) (c : BufferCursor) (v : Int) : MRes Unit := writeNum .i64 .be s c v

/-- `writeFloatBE` (line 524). -/
def writeFloatBE (s : Store) (c : BufferCursor) (v : Int) : MRes Unit := writeNum .f32 .be s c v

/-- `writeFloatLE` (line 535). -/
def writeFloatLE (s : Store) (c : BufferCursor) (v : Int) : MRes Unit := writeNum .f32 .le s c v

/-- `writeDoubleBE` (line 546). -/
def writeDoubleBE (s : Store) (c : BufferCursor) (v : Int) : MRes Unit := writeNum .f64 .be s c v

/-- `writeDoubleLE` (line 557). -/
def writeDoubleLE (s : Store) (c : BufferCursor) (v : Int) : MRes Unit := writeNum .f64 .le s c v

end BufferCursor

namespace BufferCursor

theorem checkMove_none (c : BufferCursor) (size : Int) (h1 : 0 ≤ c.pos)
    (h2 : c.pos + size ≤ (c.len : Int)) : checkMove c size = none := by
  unfold checkMove
  rw [if_neg (by omega)]

theorem checkMove_some (c : BufferCursor) (size : Int)
    (h : size > (c.len : Int) ∨ (c.len : Int) - c.pos < size) :
    checkMove c size = some (.overflow c.len c.pos size) := by
  unfold checkMove
  rw [if_pos h]

theorem move_ok (c : BufferCursor) (step : Int) (h1 : 0 ≤ c.pos + step)
    (h2 : c.pos + step ≤ (c.len : Int)) :
    move c step = .ok { c with pos := c.pos + step } := by
  simp only [move]
  rw [if_neg (by omega), if_neg (by omega)]

theorem seek_ok (c : BufferCursor) (p : Int) (h1 : 0 ≤ p) (h2 : p ≤ (c.len : Int)) :
    seek c p = .ok { c with pos := p } := by
  simp only [seek]
  rw [if_neg (by omega), if_neg (by omega)]

theorem readNum_ok (t : NumType) (e : Endian) (s : Store) (c : BufferCursor) (p : Nat)
    (hp : c.pos = (p : Int)) (hle : p + t.width ≤ c.len) :
    readNum t e s c =
      ⟨.ok (decodeNum t e (readBytes s (c.off + p) t.width)), s,
        { c with pos := (p : Int) + t.width }⟩ := by
  have hcm : checkMove c t.width = none := checkMove_none c t.width (by omega) (by omega)
  have htn : c.pos.toNat = p := by omega
  have hbr : bufferReadNum t e s c.off c.len c.pos =
      .ok (decodeNum t e (readBytes s (c.off + p) t.width)) := by
    unfold bufferReadNum
    rw [if_pos ⟨by omega, by omega⟩, htn]
  have hmv : move c t.width = .ok { c with pos := (p : Int) + t.width } := by
    rw [move_ok c t.width (by omega) (by omega), hp]
  unfold readNum
  rw [hcm, hbr, hmv]

theorem writeNum_ok (t : NumType) (e : Endian) (s : Store) (c : BufferCursor) (v : Int)
    (p : Nat) (hp : c.pos = (p : Int)) (hle : p + t.width ≤ c.len) (hv : t.inRange v) :
    writeNum t e s c v =
      ⟨.ok (), storeWrite s (c.off + p) (encodeNum t e v),
        { c with pos := (p : Int) + t.width }⟩ := by
  have hcm : checkMove c t.width = none := checkMove_none c t.width (by omega) (by omega)
  have htn : c.pos.toNat = p := by omega
  have hbw : bufferWriteNum t e s c.off c.len v c.pos =
      .ok (storeWrite s (c.off + p) (encodeNum t e v)) := by
    unfold bufferWriteNum
    rw [if_neg (by simpa using hv), if_pos ⟨by omega, by omega⟩, htn]
  have hmv : move c t.width = .ok { c with pos := (p : Int) + t.width } := by
    rw [move_ok c t.width (by omega) (by omega), hp]
  unfold writeNum
  rw [hcm, hbw, hmv]

theorem readNum_overflow (t : NumType) (e : Endian) (s : Store) (c : BufferCursor)
    (h : (t.width : Int) > c.len ∨ (c.len : Int) - c.pos < t.width) :
    readNum t e s c = ⟨.error (.overflow c.len c.pos t.width), s, c⟩ := by
  unfold readNum
  rw [checkMove_some c t.width h]

theorem writeNum_overflow (t : NumType) (e : Endian) (s : Store) (c : BufferCursor) (v : Int)
    (h : (t.width : Int) > c.len ∨ (c.len : Int) - c.pos < t.width) :
    writeNum t e s c v = ⟨.error (.overflow c.len c.pos t.width), s, c⟩ := by
  unfold writeNum
  rw [checkMove_some c t.width h]

end BufferCursor

/-- C1: for every cursor with buffer length `L` and position `p` (satisfying
the class invariant `0 ≤ p ≤ L`) and every fixed-width typed read or write
accessor of width `n ∈ {1,2,4,8}` bytes (with an in-range value for the
write), the call throws an Overflow error carrying exactly `(L, p, n)` if
`n > L` or `L - p < n`; when exactly `L - p = n` the call succeeds and
afterwards the position equals `L`. -/
theorem typed_accessor_overflow_boundary (t : NumType) (e : Endian) (s : Store)
    (c : BufferCursor) (v : Int) (hpos : 0 ≤ c.pos) (hlen : c.pos ≤ (c.len : Int))
    (hv : t.inRange v) :
    (((t.width : Int) > c.len ∨ (c.len : Int) - c.pos < t.width) →
      (BufferCursor.readNum t e s c).val = .error (.overflow c.len c.pos t.width) ∧
      (BufferCursor.writeNum t e s c v).val = .error (.overflow c.len c.pos t.width)) ∧
    ((c.len : Int) - c.pos = t.width →
      (∃ x, (BufferCursor.readNum t e s c).val = .ok x) ∧
      (BufferCursor.readNum t e s c).cur.pos = c.len ∧
      (BufferCursor.writeNum t e s c v).val = .ok () ∧
      (BufferCursor.writeNum t e s c v).cur.pos = c.len) := by
  constructor
  · intro h
    rw [BufferCursor.readNum_overflow t e s c h, BufferCursor.writeNum_overflow t e s c v h]
    exact ⟨rfl, rfl⟩
  · intro h
    have hp : c.pos = ((c.pos.toNat : Nat) : Int) := (Int.toNat_of_nonneg hpos).symm
    have hle : c.pos.toNat + t.width ≤ c.len := by omega
    rw [BufferCursor.readNum_ok t e s c c.pos.toNat hp hle,
      BufferCursor.writeNum_ok t e s c v c.pos.toNat hp hle hv]
    exact ⟨⟨_, rfl⟩, by simp; omega, rfl, by simp; omega⟩

/-- Witness for C1: a 3-byte buffer with the cursor at position 1 and a
16-bit big-endian access (`L - p = n = 2` exactly): both accessors succeed
and land on position `L = 3`. -/
theorem typed_accessor_overflow_boundary_witness :
    (BufferCursor.readNum .u16 .be [0, 0, 0] ⟨0, 3, 1⟩).cur.pos = ((3 : Nat) : Int) ∧
    (BufferCursor.writeNum .u16 .be [0, 0, 0] ⟨0, 3, 1⟩ 0x1234).val = .ok () :=
  ⟨((typed_accessor_overflow_boundary .u16 .be [0, 0, 0] ⟨0, 3, 1⟩ 0x1234
      (by decide) (by decide) (by decide)).2 (by decide)).2.1,
   ((typed_accessor_overflow_boundary .u16 .be [0, 0, 0] ⟨0, 3, 1⟩ 0x1234
      (by decide) (by decide) (by decide)).2 (by decide)).2.2.1⟩

/-- C3: for every supported fixed-width type and endianness, writing two
(representable) values consecutively into a buffer sized exactly for both
and then reading them back in order with the matching read accessor yields
the original two values exactly, and a third read attempt at end-of-buffer
throws an Overflow error carrying `(2n, 2n, n)`. -/
theorem roundtrip_two_values (t : NumType) (e : Endian) (v₁ v₂ : Int)
    (h₁ : t.inRange v₁) (h₂ : t.inRange v₂)
    (w1 w2 : MRes Unit) (r1 r2 r3 : MRes Int)
    (hw1 : w1 = BufferCursor.writeNum t e (List.replicate (2 * t.width) 0)
      ⟨0, 2 * t.width, 0⟩ v₁)
    (hw2 : w2 = BufferCursor.writeNum t e w1.store w1.cur v₂)
    (hr1 : r1 = BufferCursor.readNum t e w2.store ⟨0, 2 * t.width, 0⟩)
    (hr2 : r2 = BufferCursor.readNum t e w2.store r1.cur)
    (hr3 : r3 = BufferCursor.readNum t e w2.store r2.cur) :
    w1.val = .ok () ∧ w2.val = .ok () ∧ w2.cur.pos = ((2 * t.width : Nat) : Int) ∧
    r1.val = .ok v₁ ∧ r2.val = .ok v₂ ∧
    r3.val = .error (.overflow ((2 * t.width : Nat) : Int) ((2 * t.width : Nat) : Int)
      t.width) := by
  subst hr3 hr2 hr1 hw2 hw1
  have hwpos : 1 ≤ t.width := t.width_pos
  have hlen1 : (encodeNum t e v₁).length = t.width := encodeNum_length t e v₁
  have hlen2 : (encodeNum t e v₂).length = t.width := encodeNum_length t e v₂
  rw [BufferCursor.writeNum_ok t e (List.replicate (2 * t.width) 0)
    ⟨0, 2 * t.width, 0⟩ v₁ 0 (by norm_num) (by dsimp only; omega) h₁]
  dsimp only
  simp only [Nat.cast_zero, zero_add, Nat.add_zero, Nat.zero_add]
  rw [BufferCursor.writeNum_ok t e
    (storeWrite (List.replicate (2 * t.width) 0) 0 (encodeNum t e v₁))
    ⟨0, 2 * t.width, (t.width : Int)⟩ v₂ t.width rfl (by dsimp only; omega) h₂]
  dsimp only
  simp only [Nat.cast_zero, zero_add, Nat.add_zero, Nat.zero_add]
  rw [BufferCursor.readNum_ok t e
    (storeWrite (storeWrite (List.replicate (2 * t.width) 0) 0 (encodeNum t e v₁))
      t.width (encodeNum t e v₂))
    ⟨0, 2 * t.width, 0⟩ 0 (by norm_num) (by dsimp only; omega)]
  dsimp only
  simp only [Nat.cast_zero, zero_add, Nat.add_zero, Nat.zero_add]
  rw [BufferCursor.readNum_ok t e
    (storeWrite (storeWrite (List.replicate (2 * t.width) 0) 0 (encodeNum t e v₁))
      t.width (encodeNum t e v₂))
    ⟨0, 2 * t.width, (t.width : Int)⟩ t.width rfl (by dsimp only; omega)]
  dsimp only
  simp only [Nat.cast_zero, zero_add, Nat.add_zero, Nat.zero_add]
  have hcast : (t.width : Int) + t.width = ((2 * t.width : Nat) : Int) := by push_cast; ring
  rw [hcast]
  rw [BufferCursor.readNum_overflow t e
    (storeWrite (storeWrite (List.replicate (2 * t.width) 0) 0 (encodeNum t e v₁))
      t.width (encodeNum t e v₂))
    ⟨0, 2 * t.width, ((2 * t.width : Nat) : Int)⟩ (by right; dsimp only; push_cast; omega)]
  dsimp only
  have hb1 : readBytes (storeWrite (storeWrite (List.replicate (2 * t.width) 0) 0
      (encodeNum t e v₁)) t.width (encodeNum t e v₂)) 0 t.width =
      (encodeNum t e v₁).map (fun b => b % 256) := by
    rw [readBytes_storeWrite_disjoint t.width (encodeNum t e v₂) _ t.width 0 (by omega)]
    have h := readBytes_storeWrite (encodeNum t e v₁) (List.replicate (2 * t.width) 0) 0
      (by rw [hlen1, List.length_replicate]; omega)
    rwa [hlen1] at h
  have hb2 : readBytes (storeWrite (storeWrite (List.replicate (2 * t.width) 0) 0
      (encodeNum t e v₁)) t.width (encodeNum t e v₂)) t.width t.width =
      (encodeNum t e v₂).map (fun b => b % 256) := by
    have h := readBytes_storeWrite (encodeNum t e v₂)
      (storeWrite (List.replicate (2 * t.width) 0) 0 (encodeNum t e v₁)) t.width
      (by rw [hlen2, storeWrite_length, List.length_replicate]; omega)
    rwa [hlen2] at h
  rw [hb1, hb2, decodeNum_encodeNum t e v₁ h₁, decodeNum_encodeNum t e v₂ h₂]
  exact ⟨trivial, trivial, rfl, rfl, rfl, rfl⟩

/-- Witness for C3: 16-bit big-endian round-trip of `0x56D6` then `0x2A53`
(the repository test values) through a 4-byte buffer: the first read-back
returns `0x56D6`. -/
theorem roundtrip_two_values_witness :
    (BufferCursor.readNum .u16 .be
      (BufferCursor.writeNum .u16 .be
        (BufferCursor.writeNum .u16 .be (List.replicate (2 * NumType.u16.width) 0)
          ⟨0, 2 * NumType.u16.width, 0⟩ 0x56D6).store
        (BufferCursor.writeNum .u16 .be (List.replicate (2 * NumType.u16.width) 0)
          ⟨0, 2 * NumType.u16.width, 0⟩ 0x56D6).cur 0x2A53).store
      ⟨0, 2 * NumType.u16.width, 0⟩).val = .ok 0x56D6 :=
  (roundtrip_two_values .u16 .be 0x56D6 0x2A53 (by decide) (by decide)
    _ _ _ _ _ rfl rfl rfl rfl rfl).2.2.2.1

/-- `TypedArray.prototype.subarray` index resolution: a negative index is
relative to the end, and the result is clamped into `[0, len]`. -/
def relIndex (len : Nat) (i : Int) : Nat :=
  if i < 0 then ((len : Int) + i).toNat else (min i (len : Int)).toNat

/-- Node `buffer.toString(encoding, start, end)` byte selection: `start`
and `end` are clamped into the buffer and an empty range yields no bytes.
The decoded text is represented by the byte sequence handed to the
decoder, since the claims quantify over the range, not the character
mapping of each encoding. -/
def sliceBytes (s : Store) (off len : Nat) (start end_ : Int) : List Nat :=
  let lo : Nat := min (max start 0).toNat len
  let hi : Nat := min (max end_ 0).toNat len
  readBytes s (off + lo) (hi - lo)

/-- A source for `copy`: another `BufferCursor` (aliasing the shared store)
or a raw `Buffer` given by its own bytes. -/
inductive CopySrc
  | cur (sc : BufferCursor)
  | buf (data : List Nat)
deriving DecidableEq

/-- `source.length`: the cursor's `length` field, or the raw buffer's. -/
def srcLen : CopySrc → Nat
  | .cur sc => sc.len
  | .buf d => d.length

/-- Read `nb` source bytes starting at source index `j`. -/
def readSrc (s : Store) : CopySrc → Nat → Nat → List Nat
  | .cur sc, j, nb => readBytes s (sc.off + j) nb
  | .buf d, j, nb => readBytes d j nb

/-- Node `source.copy(target, targetStart, sourceStart, sourceEnd)`:
validates `targetStart >= 0`, `0 <= sourceStart <= source.length`,
`sourceEnd >= 0` (ERR_OUT_OF_RANGE otherwise); returns 0 bytes when
`targetStart >= target.length` or `sourceStart >= sourceEnd`; otherwise
clamps the count to the target's and source's remaining space and copies
(reading all source bytes first, as the overlap-safe primitive does).
Returns the new store and the number of bytes copied. -/
def bufCopy (s : Store) (src : CopySrc) (tOff tLen : Nat)
    (targetStart sourceStart sourceEnd : Int) : Except JsError (Store × Nat) :=
  if targetStart < 0 then .error .nodeOutOfRange
  else if sourceStart < 0 ∨ (srcLen src : Int) < sourceStart then .error .nodeOutOfRange
  else if sourceEnd < 0 then .error .nodeOutOfRange
  else if (tLen : Int) ≤ targetStart ∨ sourceEnd ≤ sourceStart then .ok (s, 0)
  else
    let se := min sourceEnd (sourceStart + ((tLen : Int) - targetStart))
    let nb := (min (se - sourceStart) ((srcLen src : Int) - sourceStart)).toNat
    let bytes := readSrc s src sourceStart.toNat nb
    .ok (storeWrite s (tOff + targetStart.toNat) bytes, nb)

/-- Node `buffer.fill(value, offset, end)` for a numeric value: the value
is masked to a byte; throws ERR_OUT_OF_RANGE when `offset < 0` or
`end > length`; an empty range is a no-op. -/
def bufFill (s : Store) (off len : Nat) (value : Nat) (offset end_ : Int) :
    Except JsError Store :=
  if offset < 0 ∨ (len : Int) < end_ then .error .nodeOutOfRange
  else if end_ ≤ offset then .ok s
  else .ok (storeWrite s (off + offset.toNat) (List.replicate (end_ - offset).toNat (value % 256)))

/-- One UTF-8 encoded character. -/
def charUtf8 (ch : Char) : List Nat :=
  let c := ch.toNat
  if c < 0x80 then [c]
  else if c < 0x800 then [0xC0 + c / 64, 0x80 + c % 64]
  else if c < 0x10000 then [0xE0 + c / 4096, 0x80 + c / 64 % 64, 0x80 + c % 64]
  else [0xF0 + c / 262144, 0x80 + c / 4096 % 64, 0x80 + c / 64 % 64, 0x80 + c % 64]

/-- The JavaScript `string.length` of a text: its number of UTF-16 code
units (characters above U+FFFF take two). -/
def utf16Len (cs : List Char) : Nat :=
  (cs.map (fun ch => if ch.toNat < 0x10000 then 1 else 2)).sum

/-- The UTF-8 encoded byte length of a text (`Buffer.byteLength`). -/
def utf8Len (cs : List Char) : Nat :=
  (cs.map (fun ch => (charUtf8 ch).length)).sum

/-- Node's UTF-8 string write: encode the longest prefix of whole
characters that fits in `cap` bytes (partially encoded characters are
never written). -/
def utf8Fit : List Char → Nat → List Nat
  | [], _ => []
  | ch :: cs, cap =>
    let bs := charUtf8 ch
    if bs.length ≤ cap then bs ++ utf8Fit cs (cap - bs.length) else []

/-- The effective `sourceEnd` of `copy` (line 190): `if (!sourceEnd)
sourceEnd = source.length` — JavaScript falsiness treats an explicit `0`
like "not provided". -/
def copySourceEnd (source : CopySrc) (sourceEnd? : Option Int) : Int :=
  match sourceEnd? with
  | none => srcLen source
  | some v => if v = 0 then srcLen source else v

/-- The fallback for `copy`'s `sourceStart` (line 191): the source
cursor's position, or 0 for a raw buffer. -/
def copyDfltStart : CopySrc → Int
  | .cur sc => sc.pos
  | .buf _ => 0

/-- The effective `sourceStart` of `copy` (line 191): `if (!sourceStart)
sourceStart = source instanceof BufferCursor ? source.pos : 0`. -/
def copySourceStart (source : CopySrc) (sourceStart? : Option Int) : Int :=
  match sourceStart? with
  | none => copyDfltStart source
  | some v => if v = 0 then copyDfltStart source else v

/-- Result of a `copy` call: like `MRes` but also carrying the source
object's cursor state after the call (the method body never assigns to the
source, which is what C9's "never mutates the source's position" means). -/
structure CopyRes where
  val : Except JsError Unit
  store : Store
  cur : BufferCursor
  src : CopySrc

namespace BufferCursor

/-- `slice` (line 113): `end = length === undefined ? this.length
: this.pos + length`; builds a new cursor over
`this.buffer.subarray(this.pos, end)` (same backing store, zero-copy),
then `this.seek(end)`; the throw from `seek` aborts the call after the
child was built but before it is returned. -/
def slice (s : Store) (c : BufferCursor) (length? : Option Int) : MRes BufferCursor :=
  let endPos : Int := match length? with
    | none => (c.len : Int)
    | some l => c.pos + l
  let lo := relIndex c.len c.pos
  let hi := relIndex c.len endPos
  let buf : BufferCursor := ⟨c.off + lo, hi - lo, 0⟩
  match seek c endPos with
  | .error e => ⟨.error e, s, c⟩
  | .ok c' => ⟨.ok buf, s, c'⟩

/-- `toString` (line 130): same `end` computation as `slice`; decodes
`this.buffer.toString(encoding, this.pos, end)` (which clamps, and never
throws), then `this.seek(end)`. -/
def toString (s : Store) (c : BufferCursor) (length? : Option Int) : MRes (List Nat) :=
  let endPos : Int := match length? with
    | none => (c.len : Int)
    | some l => c.pos + l
  let ret := sliceBytes s c.off c.len c.pos endPos
  match seek c endPos with
  | .error e => ⟨.error e, s, c⟩
  | .ok c' => ⟨.ok ret, s, c'⟩

/-- `write` (line 146): `length` defaults to `value.length` (UTF-16 code
units); `this.buffer.write(value, this.pos, length)` validates
`0 <= this.pos <= this.length` and `0 <= length <= this.length`, clamps
`length` to the remaining space, writes the longest whole-character UTF-8
prefix that fits and returns the byte count `ret`; then `this.move(ret)`.
The returned value is `ret`. -/
def write (s : Store) (c : BufferCursor) (value : List Char) (length? : Option Int) :
    MRes Nat :=
  let length : Int := length?.getD (utf16Len value)
  if c.pos < 0 ∨ (c.len : Int) < c.pos then ⟨.error .nodeOutOfRange, s, c⟩
  else if length < 0 ∨ (c.len : Int) < length then ⟨.error .nodeOutOfRange, s, c⟩
  else
    let cap : Nat := (min length ((c.len : Int) - c.pos)).toNat
    let bs := utf8Fit value cap
    let s' := storeWrite s (c.off + c.pos.toNat) bs
    match move c bs.length with
    | .error e => ⟨.error e, s', c⟩
    | .ok c' => ⟨.ok bs.length, s', c'⟩

/-- `writeBuff` (line 159): `length` defaults to `value.length`;
`value.copy(this.buffer, this.pos, 0, length)` (which clamps and mutates),
then `this.move(length)` — note the copy happens before the range check
in `move`. -/
def writeBuff (s : Store) (c : BufferCursor) (data : List Nat) (length? : Option Int) :
    MRes Unit :=
  let length : Int := length?.getD data.length
  match bufCopy s (.buf data) c.off c.len c.pos 0 length with
  | .error e => ⟨.error e, s, c⟩
  | .ok (s', _) =>
    match move c length with
    | .error e => ⟨.error e, s', c⟩
    | .ok c' => ⟨.ok (), s', c'⟩

/-- `fill` (line 172): same `end` computation as `slice`;
`checkMove(end - pos)`, then `this.buffer.fill(value, this.pos, end)`,
then `this.seek(end)`. -/
def fill (s : Store) (c : BufferCursor) (value : Nat) (length? : Option Int) : MRes Unit :=
  let endPos : Int := match length? with
    | none => (c.len : Int)
    | some l => c.pos + l
  match checkMove c (endPos - c.pos) with
  | some err => ⟨.error err, s, c⟩
  | none =>
    match bufFill s c.off c.len value c.pos endPos with
    | .error e => ⟨.error e, s, c⟩
    | .ok s' =>
      match seek c endPos with
      | .error e => ⟨.error e, s', c⟩
      | .ok c' => ⟨.ok (), s', c'⟩

/-- `copy` (line 189): `if (!sourceEnd) sourceEnd = source.length;
if (!sourceStart) sourceStart = source instanceof BufferCursor
? source.pos : 0` — JavaScript falsiness makes an explicit `0`
indistinguishable from "not provided"; then `checkMove(sourceEnd -
sourceStart)`, the Node copy from `source` (or `source.buffer`) into
`this.buffer` at `this.pos`, and `this.move(sourceEnd - sourceStart)`.
No statement assigns to the source, so the returned `src` equals the
input. -/
def copy (s : Store) (c : BufferCursor) (source : CopySrc)
    (sourceStart? sourceEnd? : Option Int) : CopyRes :=
  let sourceEnd : Int := copySourceEnd source sourceEnd?
  let sourceStart : Int := copySourceStart source sourceStart?
  let length := sourceEnd - sourceStart
  match checkMove c length with
  | some err => ⟨.error err, s, c, source⟩
  | none =>
    match bufCopy s source c.off c.len c.pos sourceStart sourceEnd with
    | .error e => ⟨.error e, s, c, source⟩
    | .ok (s', _) =>
      match move c length with
      | .error e => ⟨.error e, s', c, source⟩
      | .ok c' => ⟨.ok (), s', c', source⟩

end BufferCursor

/-- One public position-affecting operation of the class, with its
arguments. -/
inductive Op
  | opMove (step : Int)
  | opSeek (pos : Int)
  | opRead (t : NumType) (e : Endian)
  | opWrite (t : NumType) (e : Endian) (v : Int)
  | opSlice (length? : Option Int)
  | opToString (length? : Option Int)
  | opWriteStr (value : List Char) (length? : Option Int)
  | opWriteBuff (data : List Nat) (length? : Option Int)
  | opFill (value : Nat) (length? : Option Int)
  | opCopy (source : CopySrc) (sourceStart? sourceEnd? : Option Int)

/-- Run one operation on the store and cursor, keeping success/failure but
discarding returned values. -/
def runOp (s : Store) (c : BufferCursor) : Op → MRes Unit
  | .opMove step =>
    match BufferCursor.move c step with
    | .error e => ⟨.error e, s, c⟩
    | .ok c' => ⟨.ok (), s, c'⟩
  | .opSeek p =>
    match BufferCursor.seek c p with
    | .error e => ⟨.error e, s, c⟩
    | .ok c' => ⟨.ok (), s, c'⟩
  | .opRead t e =>
    let r := BufferCursor.readNum t e s c
    ⟨r.val.map (fun _ => ()), r.store, r.cur⟩
  | .opWrite t e v => BufferCursor.writeNum t e s c v
  | .opSlice l? =>
    let r := BufferCursor.slice s c l?
    ⟨r.val.map (fun _ => ()), r.store, r.cur⟩
  | .opToString l? =>
    let r := BufferCursor.toString s c l?
    ⟨r.val.map (fun _ => ()), r.store, r.cur⟩
  | .opWriteStr v l? =>
    let r := BufferCursor.write s c v l?
    ⟨r.val.map (fun _ => ()), r.store, r.cur⟩
  | .opWriteBuff d l? => BufferCursor.writeBuff s c d l?
  | .opFill v l? => BufferCursor.fill s c v l?
  | .opCopy src ss se =>
    let r := BufferCursor.copy s c src ss se
    ⟨r.val, r.store, r.cur⟩

/-- Run a sequence of operations, threading store and cursor through (the
object survives a throw in the state it had at the moment of the throw). -/
def runOps (s : Store) (c : BufferCursor) : List Op → Store × BufferCursor
  | [] => (s, c)
  | op :: ops =>
    let r := runOp s c op
    runOps r.store r.cur ops

/-- Whether an `Except` result is a success. -/
def exOk {α : Type} : Except JsError α → Bool
  | .ok _ => true
  | .error _ => false

/-- The class position invariant. -/
def CursorInv (c : BufferCursor) : Prop := 0 ≤ c.pos ∧ c.pos ≤ (c.len : Int)

instance (c : BufferCursor) : Decidable (CursorInv c) := by
  unfold CursorInv
  exact inferInstance

/-- Every operation's resulting cursor either is the original (every throw
hands back the cursor untouched, since `pos` is only assigned inside
`move`/`seek` after their checks) or comes out of a successful `move` or
`seek`; and on failure the cursor is the original. -/
theorem runOp_step (s : Store) (c : BufferCursor) (op : Op) :
    (exOk (runOp s c op).val = false → (runOp s c op).cur = c) ∧
    ((runOp s c op).cur = c ∨
      (∃ p, BufferCursor.move c p = .ok (runOp s c op).cur) ∨
      (∃ p, BufferCursor.seek c p = .ok (runOp s c op).cur)) := by
  cases op with
  | opMove step =>
    simp only [runOp]
    split
    · exact ⟨fun _ => by trivial, .inl (by trivial)⟩
    · next c' heq => exact ⟨fun h => by simp [exOk, Except.map] at h, .inr (.inl ⟨step, heq⟩)⟩
  | opSeek p =>
    simp only [runOp]
    split
    · exact ⟨fun _ => by trivial, .inl (by trivial)⟩
    · next c' heq => exact ⟨fun h => by simp [exOk, Except.map] at h, .inr (.inr ⟨p, heq⟩)⟩
  | opRead t e =>
    simp only [runOp, BufferCursor.readNum]
    split
    · exact ⟨fun _ => by trivial, .inl (by trivial)⟩
    · split
      · exact ⟨fun _ => by trivial, .inl (by trivial)⟩
      · split
        · exact ⟨fun _ => by trivial, .inl (by trivial)⟩
        · next c' heq => exact ⟨fun h => by simp [exOk, Except.map] at h, .inr (.inl ⟨_, heq⟩)⟩
  | opWrite t e v =>
    simp only [runOp, BufferCursor.writeNum]
    split
    · exact ⟨fun _ => by trivial, .inl (by trivial)⟩
    · split
      · exact ⟨fun _ => by trivial, .inl (by trivial)⟩
      · split
        · exact ⟨fun _ => by trivial, .inl (by trivial)⟩
        · next c' heq => exact ⟨fun h => by simp [exOk, Except.map] at h, .inr (.inl ⟨_, heq⟩)⟩
  | opSlice l? =>
    simp only [runOp, BufferCursor.slice]
    split
    · exact ⟨fun _ => by trivial, .inl (by trivial)⟩
    · next c' heq => exact ⟨fun h => by simp [exOk, Except.map] at h, .inr (.inr ⟨_, heq⟩)⟩
  | opToString l? =>
    simp only [runOp, BufferCursor.toString]
    split
    · exact ⟨fun _ => by trivial, .inl (by trivial)⟩
    · next c' heq => exact ⟨fun h => by simp [exOk, Except.map] at h, .inr (.inr ⟨_, heq⟩)⟩
  | opWriteStr v l? =>
    simp only [runOp, BufferCursor.write]
    split
    · exact ⟨fun _ => by trivial, .inl (by trivial)⟩
    · split
      · exact ⟨fun _ => by trivial, .inl (by trivial)⟩
      · split
        · exact ⟨fun _ => by trivial, .inl (by trivial)⟩
        · next c' heq => exact ⟨fun h => by simp [exOk, Except.map] at h, .inr (.inl ⟨_, heq⟩)⟩
  | opWriteBuff d l? =>
    simp only [runOp, BufferCursor.writeBuff]
    split
    · exact ⟨fun _ => by trivial, .inl (by trivial)⟩
    · split
      · exact ⟨fun _ => by trivial, .inl (by trivial)⟩
      · next c' heq => exact ⟨fun h => by simp [exOk, Except.map] at h, .inr (.inl ⟨_, heq⟩)⟩
  | opFill v l? =>
    simp only [runOp, BufferCursor.fill]
    split
    · exact ⟨fun _ => by trivial, .inl (by trivial)⟩
    · split
      · exact ⟨fun _ => by trivial, .inl (by trivial)⟩
      · split
        · exact ⟨fun _ => by trivial, .inl (by trivial)⟩
        · next c' heq => exact ⟨fun h => by simp [exOk, Except.map] at h, .inr (.inr ⟨_, heq⟩)⟩
  | opCopy src ss se =>
    simp only [runOp, BufferCursor.copy]
    split
    · exact ⟨fun _ => by trivial, .inl (by trivial)⟩
    · split
      · exact ⟨fun _ => by trivial, .inl (by trivial)⟩
      · split
        · exact ⟨fun _ => by trivial, .inl (by trivial)⟩
        · next c' heq => exact ⟨fun h => by simp [exOk, Except.map] at h, .inr (.inl ⟨_, heq⟩)⟩

theorem move_eq_ok (c : BufferCursor) (step : Int) (c' : BufferCursor)
    (h : BufferCursor.move c step = .ok c') :
    c' = { c with pos := c.pos + step } ∧ 0 ≤ c.pos + step ∧ c.pos + step ≤ (c.len : Int) := by
  simp only [BufferCursor.move] at h
  split at h
  · cases h
  · split at h
    · cases h
    · cases h
      exact ⟨rfl, by omega, by omega⟩

theorem seek_eq_ok (c : BufferCursor) (p : Int) (c' : BufferCursor)
    (h : BufferCursor.seek c p = .ok c') :
    c' = { c with pos := p } ∧ 0 ≤ p ∧ p ≤ (c.len : Int) := by
  simp only [BufferCursor.seek] at h
  split at h
  · cases h
  · split at h
    · cases h
    · cases h
      exact ⟨rfl, by omega, by omega⟩

theorem runOp_inv (s : Store) (c : BufferCursor) (h : CursorInv c) (op : Op) :
    CursorInv (runOp s c op).cur ∧ (runOp s c op).cur.len = c.len ∧
      (exOk (runOp s c op).val = false → (runOp s c op).cur.pos = c.pos) := by
  obtain ⟨hfail, hdisj⟩ := runOp_step s c op
  have hcur : CursorInv (runOp s c op).cur ∧ (runOp s c op).cur.len = c.len := by
    rcases hdisj with hc | ⟨p, hmv⟩ | ⟨p, hsk⟩
    · rw [hc]
      exact ⟨h, rfl⟩
    · obtain ⟨hc', h1, h2⟩ := move_eq_ok c p _ hmv
      rw [hc']
      exact ⟨⟨h1, h2⟩, rfl⟩
    · obtain ⟨hc', h1, h2⟩ := seek_eq_ok c p _ hsk
      rw [hc']
      exact ⟨⟨h1, h2⟩, rfl⟩
  exact ⟨hcur.1, hcur.2, fun hf => by rw [hfail hf]⟩

theorem runOps_inv (ops : List Op) (s : Store) (c : BufferCursor) (h : CursorInv c) :
    CursorInv (runOps s c ops).2 := by
  induction ops generalizing s c with
  | nil => exact h
  | cons op ops ih => exact ih _ _ (runOp_inv s c h op).1

/-- The constructor (line 19): `pos` starts at 0 and `length` is fixed to
the wrapped buffer view's length. -/
def BufferCursor.new (off len : Nat) : BufferCursor := ⟨off, len, 0⟩

/-- C2: a freshly constructed cursor satisfies `0 ≤ pos ≤ length` with
`length` the backing buffer's length; every operation preserves the
invariant and never changes `length`; a failed operation leaves the
position unchanged; and the invariant holds after any sequence of
operations. -/
theorem position_invariant (s : Store) (c : BufferCursor) (h : CursorInv c) :
    (∀ off len : Nat, (BufferCursor.new off len).pos = 0 ∧
      (BufferCursor.new off len).len = len ∧ CursorInv (BufferCursor.new off len)) ∧
    (∀ op : Op, CursorInv (runOp s c op).cur ∧ (runOp s c op).cur.len = c.len ∧
      (exOk (runOp s c op).val = false → (runOp s c op).cur.pos = c.pos)) ∧
    (∀ ops : List Op, CursorInv (runOps s c ops).2) :=
  ⟨fun _ len => ⟨rfl, rfl, le_refl 0, Int.ofNat_nonneg len⟩,
   fun op => runOp_inv s c h op,
   fun ops => runOps_inv ops s c h⟩

/-- Witness for C2: a 4-byte cursor running a seek, a backwards move, a
byte write and an over-long fill (which fails) still satisfies the
invariant. -/
theorem position_invariant_witness :
    CursorInv (runOps [0, 0, 0, 0] ⟨0, 4, 0⟩
      [.opSeek 2, .opMove (-1), .opWrite .u8 .le 7, .opFill 9 (some 99)]).2 :=
  (position_invariant [0, 0, 0, 0] ⟨0, 4, 0⟩ (by decide)).2.2
    [.opSeek 2, .opMove (-1), .opWrite .u8 .le 7, .opFill 9 (some 99)]

/-- C6: `seek(pos)` sets the position to `pos` (returning the cursor) when
`0 ≤ pos ≤ length`, and fails with a range error exactly when `pos < 0` or
`pos > length`, leaving the position unchanged; `seek(length)` succeeds
and `eof()` is then true; and `eof()` returns true iff
`position = length`. -/
theorem seek_bounds_eof (s : Store) (c : BufferCursor) (p : Int) :
    ((0 ≤ p ∧ p ≤ (c.len : Int)) →
      BufferCursor.seek c p = .ok { c with pos := p }) ∧
    ((p < 0 ∨ (c.len : Int) < p) →
      (BufferCursor.seek c p = .error .rangeSeekBeforeStart ∨
       BufferCursor.seek c p = .error .rangeSeekBeyond) ∧
      (runOp s c (.opSeek p)).cur.pos = c.pos) ∧
    (BufferCursor.seek c (c.len : Int) = .ok { c with pos := (c.len : Int) } ∧
      BufferCursor.eof { c with pos := (c.len : Int) } = true) ∧
    (∀ c' : BufferCursor, BufferCursor.eof c' = true ↔ c'.pos = (c'.len : Int)) := by
  refine ⟨?_, ?_, ?_, ?_⟩
  · rintro ⟨h1, h2⟩
    exact BufferCursor.seek_ok c p h1 h2
  · intro h
    constructor
    · simp only [BufferCursor.seek]
      split
      · exact .inl rfl
      · rw [if_pos (by omega)]
        exact .inr rfl
    · have hstep := (runOp_step s c (.opSeek p)).1
      have hfail : exOk (runOp s c (.opSeek p)).val = false := by
        simp only [runOp]
        split
        · simp [exOk]
        · next c' heq =>
          obtain ⟨-, h1, h2⟩ := seek_eq_ok c p c' heq
          omega
      rw [hstep hfail]
  · exact ⟨BufferCursor.seek_ok c _ (by omega) (by omega), by simp [BufferCursor.eof]⟩
  · intro c'
    simp [BufferCursor.eof]

/-- Witness for C6: on a 4-byte buffer at position 1, `seek 5` fails with
the beyond-buffer range error and the position stays 1. -/
theorem seek_bounds_eof_witness :
    (BufferCursor.seek ⟨0, 4, 1⟩ 5 = .error .rangeSeekBeforeStart ∨
     BufferCursor.seek ⟨0, 4, 1⟩ 5 = .error .rangeSeekBeyond) ∧
    (runOp [0, 0, 0, 0] ⟨0, 4, 1⟩ (.opSeek 5)).cur.pos = 1 :=
  (seek_bounds_eof [0, 0, 0, 0] ⟨0, 4, 1⟩ 5).2.1 (by decide)

theorem sliceBytes_eq (s : Store) (off len : Nat) (p endPos : Int)
    (hp0 : 0 ≤ p) (hpl : p ≤ (len : Int)) (he0 : 0 ≤ endPos) (hel : endPos ≤ (len : Int)) :
    sliceBytes s off len p endPos = readBytes s (off + p.toNat) (endPos - p).toNat := by
  unfold sliceBytes
  rw [max_eq_left hp0, max_eq_left he0,
    Nat.min_eq_left (by omega : p.toNat ≤ len),
    Nat.min_eq_left (by omega : endPos.toNat ≤ len)]
  show readBytes s (off + p.toNat) (endPos.toNat - p.toNat) =
    readBytes s (off + p.toNat) (endPos - p).toNat
  have h3 : endPos.toNat - p.toNat = (endPos - p).toNat := by omega
  rw [h3]

/-- C7: `toString(encoding?, length?)` computes `end` as `slice` does (the
buffer's length when `length` is unspecified, else `position + length`);
on success it returns the decode of exactly the bytes in
`[position, end)`, advances the position to `end` and leaves the buffer
unchanged; when `end` is out of bounds it fails with the seek range error
(never the Overflow error — only the position bound check is performed)
leaving position and buffer unchanged. -/
theorem toString_range_decode (s : Store) (c : BufferCursor) (length? : Option Int)
    (hpos : 0 ≤ c.pos) (hlen : c.pos ≤ (c.len : Int)) :
    ∀ endPos : Int,
      endPos = (match length? with | none => (c.len : Int) | some l => c.pos + l) →
      ((0 ≤ endPos ∧ endPos ≤ (c.len : Int)) →
        (BufferCursor.toString s c length?).val =
          .ok (readBytes s (c.off + c.pos.toNat) (endPos - c.pos).toNat) ∧
        (BufferCursor.toString s c length?).cur.pos = endPos ∧
        (BufferCursor.toString s c length?).store = s) ∧
      ((endPos < 0 ∨ (c.len : Int) < endPos) →
        ((BufferCursor.toString s c length?).val = .error .rangeSeekBeforeStart ∨
         (BufferCursor.toString s c length?).val = .error .rangeSeekBeyond) ∧
        (BufferCursor.toString s c length?).cur.pos = c.pos ∧
        (BufferCursor.toString s c length?).store = s) := by
  intro endPos hend
  constructor
  · rintro ⟨h0, h1⟩
    simp only [BufferCursor.toString, ← hend]
    rw [BufferCursor.seek_ok c endPos h0 h1]
    exact ⟨congrArg Except.ok (sliceBytes_eq s c.off c.len c.pos endPos hpos hlen h0 h1),
      rfl, rfl⟩
  · intro h
    rcases h with h | h
    · have hsk : BufferCursor.seek c endPos = .error .rangeSeekBeforeStart := by
        simp only [BufferCursor.seek]
        rw [if_pos h]
      simp only [BufferCursor.toString, ← hend, hsk]
      exact ⟨.inl (by trivial), by trivial, by trivial⟩
    · have hsk : BufferCursor.seek c endPos = .error .rangeSeekBeyond := by
        simp only [BufferCursor.seek]
        rw [if_neg (by omega), if_pos (by omega)]
      simp only [BufferCursor.toString, ← hend, hsk]
      exact ⟨.inr (by trivial), by trivial, by trivial⟩

/-- Witness for C7: `toString` with length 2 on a 4-byte buffer at
position 1 returns the bytes `[2, 3]` and moves the position to 3. -/
theorem toString_range_decode_witness :
    (BufferCursor.toString [1, 2, 3, 4] ⟨0, 4, 1⟩ (some 2)).val =
      .ok (readBytes [1, 2, 3, 4] (0 + (1 : Int).toNat) (((3 : Int) - 1).toNat)) ∧
    (BufferCursor.toString [1, 2, 3, 4] ⟨0, 4, 1⟩ (some 2)).cur.pos = 3 ∧
    (BufferCursor.toString [1, 2, 3, 4] ⟨0, 4, 1⟩ (some 2)).store = [1, 2, 3, 4] :=
  (toString_range_decode [1, 2, 3, 4] ⟨0, 4, 1⟩ (some 2) (by decide) (by decide)
    3 (by decide)).1 (by decide)

theorem relIndex_of_nonneg (len : Nat) (i : Int) (h0 : 0 ≤ i) (h1 : i ≤ (len : Int)) :
    relIndex len i = i.toNat := by
  unfold relIndex
  rw [if_neg (by omega), min_eq_left h1]

/-- C5: with `0 ≤ p` and `p + k ≤ length` (and the view backed by the
store), `slice k` returns a new cursor over `[p, p+k)` of the same backing
storage with no copy: the child is exactly `(off + p, k, 0)` over the
unchanged store, the parent advances to `p + k`, a byte written through
either cursor is read back through the other at the corresponding offset,
and an out-of-bounds computed end makes `slice` fail with exactly the
error `seek` produces there, leaving the parent position unchanged. -/
theorem slice_subrange_aliasing (s : Store) (c : BufferCursor) (k p : Nat)
    (hp : c.pos = (p : Int)) (hk : p + k ≤ c.len) (hs : c.off + c.len ≤ s.length) :
    (BufferCursor.slice s c (some (k : Int))).val = .ok ⟨c.off + p, k, 0⟩ ∧
    (BufferCursor.slice s c (some (k : Int))).cur.pos = (p : Int) + k ∧
    (BufferCursor.slice s c (some (k : Int))).store = s ∧
    (∀ i : Nat, i < k → ∀ v : Int, 0 ≤ v → v < 256 →
      (BufferCursor.writeNum .u8 .le s ⟨c.off + p, k, (i : Int)⟩ v).val = .ok () ∧
      (BufferCursor.readNum .u8 .le
        (BufferCursor.writeNum .u8 .le s ⟨c.off + p, k, (i : Int)⟩ v).store
        { c with pos := ((p + i : Nat) : Int) }).val = .ok v) ∧
    (∀ i : Nat, i < k → ∀ v : Int, 0 ≤ v → v < 256 →
      (BufferCursor.writeNum .u8 .le s { c with pos := ((p + i : Nat) : Int) } v).val =
        .ok () ∧
      (BufferCursor.readNum .u8 .le
        (BufferCursor.writeNum .u8 .le s { c with pos := ((p + i : Nat) : Int) } v).store
        ⟨c.off + p, k, (i : Int)⟩).val = .ok v) ∧
    (∀ l : Int, (c.pos + l < 0 ∨ (c.len : Int) < c.pos + l) →
      ∃ err, (BufferCursor.slice s c (some l)).val = .error err ∧
        BufferCursor.seek c (c.pos + l) = .error err ∧
        (BufferCursor.slice s c (some l)).cur.pos = c.pos) := by
  have hsliceOk : BufferCursor.slice s c (some (k : Int)) =
      ⟨.ok ⟨c.off + p, k, 0⟩, s, { c with pos := c.pos + (k : Int) }⟩ := by
    simp only [BufferCursor.slice]
    rw [BufferCursor.seek_ok c (c.pos + (k : Int)) (by omega) (by omega),
      relIndex_of_nonneg c.len c.pos (by omega) (by omega),
      relIndex_of_nonneg c.len (c.pos + (k : Int)) (by omega) (by omega)]
    have h1 : c.pos.toNat = p := by omega
    have h2 : (c.pos + (k : Int)).toNat = p + k := by omega
    rw [h1, h2, Nat.add_sub_cancel_left]
  have hvu8 : ∀ v : Int, 0 ≤ v → v < 256 → NumType.u8.inRange v := by
    intro v h0 h1
    unfold NumType.inRange
    rw [if_neg (by decide)]
    have h2 : (2 : Int) ^ (8 * NumType.u8.width) = 256 := by decide
    exact ⟨h0, by omega⟩
  have hu8len : ∀ v : Int, (encodeNum .u8 .le v).length = 1 := fun v => encodeNum_length _ _ v
  have halias : ∀ idx : Nat, idx + 1 ≤ s.length → ∀ v : Int, 0 ≤ v → v < 256 →
      decodeNum .u8 .le (readBytes (storeWrite s idx (encodeNum .u8 .le v)) idx 1) = v := by
    intro idx hidx v h0 h1
    have hr := readBytes_storeWrite (encodeNum .u8 .le v) s idx (by rw [hu8len]; omega)
    rw [hu8len] at hr
    rw [hr]
    exact decodeNum_encodeNum .u8 .le v (hvu8 v h0 h1)
  refine ⟨by rw [hsliceOk], by rw [hsliceOk, hp], by rw [hsliceOk], ?_, ?_, ?_⟩
  · intro i hi v h0 h1
    have hw := BufferCursor.writeNum_ok .u8 .le s ⟨c.off + p, k, (i : Int)⟩ v i rfl
      (by simpa [NumType.width] using hi) (hvu8 v h0 h1)
    constructor
    · rw [hw]
    · have hr := BufferCursor.readNum_ok .u8 .le
        (BufferCursor.writeNum .u8 .le s ⟨c.off + p, k, (i : Int)⟩ v).store
        { c with pos := ((p + i : Nat) : Int) } (p + i) rfl
        (by simpa [NumType.width] using by omega)
      rw [hr, hw]
      have hidx : c.off + (p + i) = c.off + p + i := by omega
      rw [hidx]
      have := halias (c.off + p + i) (by omega) v h0 h1
      simp only [NumType.width] at this ⊢
      rw [this]
  · intro i hi v h0 h1
    have hw := BufferCursor.writeNum_ok .u8 .le s { c with pos := ((p + i : Nat) : Int) } v
      (p + i) rfl (by simpa [NumType.width] using by omega) (hvu8 v h0 h1)
    constructor
    · rw [hw]
    · have hr := BufferCursor.readNum_ok .u8 .le
        (BufferCursor.writeNum .u8 .le s { c with pos := ((p + i : Nat) : Int) } v).store
        ⟨c.off + p, k, (i : Int)⟩ i rfl (by simpa [NumType.width] using hi)
      rw [hr, hw]
      have hidx : c.off + p + i = c.off + (p + i) := by omega
      rw [hidx]
      have := halias (c.off + (p + i)) (by omega) v h0 h1
      simp only [NumType.width] at this ⊢
      rw [this]
  · intro l hl
    rcases hl with hneg | hbig
    · refine ⟨.rangeSeekBeforeStart, ?_⟩
      have hsk : BufferCursor.seek c (c.pos + l) = .error .rangeSeekBeforeStart := by
        simp only [BufferCursor.seek]
        rw [if_pos hneg]
      simp only [BufferCursor.slice, hsk]
      exact ⟨by trivial, by trivial, by trivial⟩
    · refine ⟨.rangeSeekBeyond, ?_⟩
      have hsk : BufferCursor.seek c (c.pos + l) = .error .rangeSeekBeyond := by
        simp only [BufferCursor.seek]
        rw [if_neg (by omega), if_pos (by omega)]
      simp only [BufferCursor.slice, hsk]
      exact ⟨by trivial, by trivial, by trivial⟩

/-- Witness for C5: slicing 2 bytes at position 1 of a 4-byte buffer
yields the child cursor `(1, 2, 0)` sharing the store. -/
theorem slice_subrange_aliasing_witness :
    (BufferCursor.slice [9, 9, 9, 9] ⟨0, 4, 1⟩ (some ((2 : Nat) : Int))).val =
      .ok ⟨0 + 1, 2, 0⟩ ∧
    (BufferCursor.slice [9, 9, 9, 9] ⟨0, 4, 1⟩ (some ((2 : Nat) : Int))).cur.pos =
      ((1 : Nat) : Int) + 2 :=
  ⟨(slice_subrange_aliasing [9, 9, 9, 9] ⟨0, 4, 1⟩ 2 1 (by decide) (by decide) (by decide)).1,
   (slice_subrange_aliasing [9, 9, 9, 9] ⟨0, 4, 1⟩ 2 1 (by decide) (by decide) (by decide)).2.1⟩

theorem utf8Fit_length_le (cs : List Char) (cap : Nat) : (utf8Fit cs cap).length ≤ cap := by
  induction cs generalizing cap with
  | nil => simp [utf8Fit]
  | cons ch cs ih =>
    simp only [utf8Fit]
    split
    · next h =>
      rw [List.length_append]
      have := ih (cap - (charUtf8 ch).length)
      omega
    · simp

/-- Counterexample to C8 as stated: the claim says the `length` argument
defaults to the text's natural encoded length in the chosen encoding, but
the code defaults it to `value.length` (UTF-16 code units).  For the
one-character text `é` (UTF-8 length 2, string length 1) in a 4-byte
buffer, the defaulted call writes nothing and the position stays 0,
while the call with the encoded length 2 writes both bytes and advances
the position to 2. -/
theorem write_default_length_counterexample :
    utf8Len ['é'] = 2 ∧ utf16Len ['é'] = 1 ∧
    (BufferCursor.write [0, 0, 0, 0] ⟨0, 4, 0⟩ ['é'] none).cur.pos = 0 ∧
    (BufferCursor.write [0, 0, 0, 0] ⟨0, 4, 0⟩ ['é'] none).store = [0, 0, 0, 0] ∧
    (BufferCursor.write [0, 0, 0, 0] ⟨0, 4, 0⟩ ['é'] (some 2)).cur.pos = 2 ∧
    (BufferCursor.write [0, 0, 0, 0] ⟨0, 4, 0⟩ ['é'] (some 2)).store =
      [0xC3, 0xA9, 0, 0] := by
  decide

/-- C8 amended: `write(text, length?, encoding?)` encodes text into the
buffer at the current position, writing at most `length` bytes where
`length` defaults to the text's UTF-16 code-unit count (`value.length`),
not its encoded byte length; under the class invariant and a valid
effective `length` the call succeeds, writes the longest whole-character
UTF-8 prefix fitting in `min(length, remaining)` bytes at the position,
and advances the position by exactly the number of bytes written. -/
theorem write_advances_by_bytes_written (s : Store) (c : BufferCursor) (value : List Char)
    (length? : Option Int) (hpos : 0 ≤ c.pos) (hlen : c.pos ≤ (c.len : Int)) :
    (BufferCursor.write s c value none = BufferCursor.write s c value
      (some (utf16Len value))) ∧
    (∀ L : Int, length?.getD (utf16Len value) = L → 0 ≤ L → L ≤ (c.len : Int) →
      ∃ nb : Nat, (BufferCursor.write s c value length?).val = .ok nb ∧
        (BufferCursor.write s c value length?).cur.pos = c.pos + nb ∧
        (nb : Int) ≤ L ∧
        (BufferCursor.write s c value length?).store =
          storeWrite s (c.off + c.pos.toNat)
            (utf8Fit value (min L ((c.len : Int) - c.pos)).toNat)) := by
  constructor
  · rfl
  · intro L hL hL0 hLlen
    simp only [BufferCursor.write, hL]
    rw [if_neg (by omega), if_neg (by omega)]
    have hcap := utf8Fit_length_le value (min L ((c.len : Int) - c.pos)).toNat
    have hmin : min L ((c.len : Int) - c.pos) ≤ (c.len : Int) - c.pos := min_le_right _ _
    have hmin0 : 0 ≤ min L ((c.len : Int) - c.pos) := le_min hL0 (by omega)
    rw [BufferCursor.move_ok c
      ((utf8Fit value (min L ((c.len : Int) - c.pos)).toNat).length) (by omega) (by omega)]
    exact ⟨(utf8Fit value (min L ((c.len : Int) - c.pos)).toNat).length,
      rfl, rfl, by omega, rfl⟩

/-- Witness for C8: writing `"ab"` with no length into a 4-byte buffer
writes 2 bytes and advances the position to 2. -/
theorem write_advances_by_bytes_written_witness :
    ∃ nb : Nat, (BufferCursor.write [0, 0, 0, 0] ⟨0, 4, 0⟩ ['a', 'b'] none).val = .ok nb ∧
      (BufferCursor.write [0, 0, 0, 0] ⟨0, 4, 0⟩ ['a', 'b'] none).cur.pos = (0 : Int) + nb ∧
      (nb : Int) ≤ 2 ∧
      (BufferCursor.write [0, 0, 0, 0] ⟨0, 4, 0⟩ ['a', 'b'] none).store =
        storeWrite [0, 0, 0, 0] (0 + (0 : Int).toNat)
          (utf8Fit ['a', 'b'] (min 2 (((4 : Nat) : Int) - 0)).toNat) :=
  (write_advances_by_bytes_written [0, 0, 0, 0] ⟨0, 4, 0⟩ ['a', 'b'] none
    (by decide) (by decide)).2 2 (by decide) (by decide) (by decide)

theorem checkMove_eq_none (c : BufferCursor) (size : Int)
    (h : BufferCursor.checkMove c size = none) :
    size ≤ (c.len : Int) ∧ size ≤ (c.len : Int) - c.pos := by
  unfold BufferCursor.checkMove at h
  split at h
  · cases h
  · next hcond => exact ⟨by omega, by omega⟩

theorem move_eq_error (c : BufferCursor) (step : Int) (e : JsError)
    (h : BufferCursor.move c step = .error e) :
    c.pos + step < 0 ∨ (c.len : Int) < c.pos + step := by
  simp only [BufferCursor.move] at h
  split at h
  · next h1 => exact .inl h1
  · split at h
    · next h2 => exact .inr (by omega)
    · cases h

theorem seek_eq_error (c : BufferCursor) (p : Int) (e : JsError)
    (h : BufferCursor.seek c p = .error e) :
    p < 0 ∨ (c.len : Int) < p := by
  simp only [BufferCursor.seek] at h
  split at h
  · next h1 => exact .inl h1
  · split at h
    · next h2 => exact .inr (by omega)
    · cases h

/-- Counterexample to C4 as stated: `writeBuff` copies before `move`
range-checks, so writing a 2-byte buffer into a 1-byte cursor fails (range
error from `move`) yet has already overwritten the first byte: the backing
buffer changed from `[0]` to `[7]` although the call failed. -/
theorem writeBuff_partial_mutation_counterexample :
    exOk (BufferCursor.writeBuff [0] ⟨0, 1, 0⟩ [7, 8] none).val = false ∧
    (BufferCursor.writeBuff [0] ⟨0, 1, 0⟩ [7, 8] none).store = [7] ∧
    (BufferCursor.writeBuff [0] ⟨0, 1, 0⟩ [7, 8] none).cur.pos = 0 := by
  decide

/-- The write operations whose validation precedes every mutation: the
fixed-width typed writes, `write`, `fill` and `copy` — everything in C4's
list except `writeBuff`. -/
def Op.checkedWrite : Op → Bool
  | .opWrite _ _ _ => true
  | .opWriteStr _ _ => true
  | .opFill _ _ => true
  | .opCopy _ _ _ => true
  | _ => false

/-- C4 amended: for the fixed-width typed writes, `write`, `fill` and
`copy` (but not `writeBuff`, which mutates through the Node copy before
`move` range-checks), a failed call leaves the backing bytes and the
position unchanged, under the class invariant. -/
theorem failed_write_leaves_state_unchanged (s : Store) (c : BufferCursor) (op : Op)
    (hinv : CursorInv c) (hop : op.checkedWrite = true) :
    exOk (runOp s c op).val = false →
      (runOp s c op).store = s ∧ (runOp s c op).cur.pos = c.pos := by
  obtain ⟨hp0, hpl⟩ := hinv
  cases op with
  | opMove step => cases hop
  | opSeek p => cases hop
  | opRead t e => cases hop
  | opSlice l? => cases hop
  | opToString l? => cases hop
  | opWriteBuff d l? => cases hop
  | opWrite t e v =>
    simp only [runOp, BufferCursor.writeNum]
    split
    · exact fun _ => ⟨rfl, rfl⟩
    · next hcm =>
      split
      · exact fun _ => ⟨rfl, rfl⟩
      · split
        · next e' heq =>
          obtain ⟨h1, h2⟩ := checkMove_eq_none c _ hcm
          have h3 := move_eq_error c _ _ heq
          intro _
          exfalso
          have h4 : (0 : Int) ≤ (t.width : Int) := by positivity
          rcases h3 with h | h <;> omega
        · exact fun hfail => absurd hfail (by simp [exOk, Except.map])
  | opWriteStr v l? =>
    simp only [runOp, BufferCursor.write]
    split
    · exact fun _ => ⟨rfl, rfl⟩
    · next hoff =>
      split
      · exact fun _ => ⟨rfl, rfl⟩
      · next hL =>
        split
        · next e' heq =>
          intro _
          exfalso
          have hcap := utf8Fit_length_le v
            (min (l?.getD (utf16Len v)) ((c.len : Int) - c.pos)).toNat
          have hmin : min (l?.getD (utf16Len v)) ((c.len : Int) - c.pos) ≤
              (c.len : Int) - c.pos := min_le_right _ _
          have h3 := move_eq_error c _ _ heq
          rcases h3 with h | h <;> omega
        · exact fun hfail => absurd hfail (by simp [exOk, Except.map])
  | opFill v l? =>
    simp only [runOp, BufferCursor.fill]
    split
    · exact fun _ => ⟨rfl, rfl⟩
    · next hcm =>
      split
      · exact fun _ => ⟨rfl, rfl⟩
      · next s' heqF =>
        split
        · next e' hsk =>
          obtain ⟨h1, h2⟩ := checkMove_eq_none c _ hcm
          have h3 := seek_eq_error c _ _ hsk
          have hend : (match l? with
              | none => (c.len : Int)
              | some l => c.pos + l) < 0 := by
            rcases h3 with h | h
            · exact h
            · exfalso; omega
          have hs' : s' = s := by
            unfold bufFill at heqF
            rw [if_neg (by omega), if_pos (by omega)] at heqF
            exact (Except.ok.inj heqF).symm
          intro _
          exact ⟨by rw [hs'], rfl⟩
        · exact fun hfail => absurd hfail (by simp [exOk, Except.map])
  | opCopy src ss se =>
    simp only [runOp, BufferCursor.copy]
    split
    · exact fun _ => ⟨rfl, rfl⟩
    · next hcm =>
      split
      · exact fun _ => ⟨rfl, rfl⟩
      · rename_i s' nb heqC
        split
        · next e' hmv =>
          obtain ⟨h1, h2⟩ := checkMove_eq_none c _ hcm
          have h3 := move_eq_error c _ _ hmv
          have hneg : copySourceEnd src se - copySourceStart src ss < 0 := by
            rcases h3 with h | h
            · omega
            · exfalso; omega
          have hs' : s' = s := by
            unfold bufCopy at heqC
            split at heqC
            · cases heqC
            · split at heqC
              · cases heqC
              · split at heqC
                · cases heqC
                · split at heqC
                  · exact (congrArg Prod.fst (Except.ok.inj heqC)).symm
                  · next hcond => exfalso; omega
          intro _
          exact ⟨by rw [hs'], rfl⟩
        · exact fun hfail => absurd hfail (by simp [exOk, Except.map])

/-- Witness for C4 amended: a one-past-the-end byte write on a full cursor
fails with Overflow and leaves buffer and position untouched. -/
theorem failed_write_leaves_state_unchanged_witness :
    (runOp [5] ⟨0, 1, 1⟩ (.opWrite .u8 .le 7)).store = [5] ∧
    (runOp [5] ⟨0, 1, 1⟩ (.opWrite .u8 .le 7)).cur.pos = 1 :=
  failed_write_leaves_state_unchanged [5] ⟨0, 1, 1⟩ (.opWrite .u8 .le 7)
    (by decide) (by decide) (by decide)

theorem copySourceStart_dflt (source : CopySrc) :
    copySourceStart source (some (copyDfltStart source)) = copySourceStart source none := by
  simp only [copySourceStart]
  by_cases h : copyDfltStart source = 0
  · rw [if_pos h]
  · rw [if_neg h]

theorem copySourceStart_zero (source : CopySrc) :
    copySourceStart source (some 0) = copySourceStart source none := by
  simp only [copySourceStart]
  rw [if_pos trivial]

theorem copySourceEnd_dflt (source : CopySrc) :
    copySourceEnd source (some ((srcLen source : Nat) : Int)) = copySourceEnd source none := by
  simp only [copySourceEnd]
  by_cases h : ((srcLen source : Nat) : Int) = 0
  · rw [if_pos h]
  · rw [if_neg h]

theorem copy_congr (s : Store) (c : BufferCursor) (source : CopySrc)
    (a b a' b' : Option Int)
    (hs : copySourceStart source a = copySourceStart source a')
    (he : copySourceEnd source b = copySourceEnd source b') :
    BufferCursor.copy s c source a b = BufferCursor.copy s c source a' b' := by
  simp only [BufferCursor.copy, hs, he]

theorem bufCopy_ok (s : Store) (src : CopySrc) (tOff tLen : Nat) (ts sS sE : Int)
    (h1 : 0 ≤ ts) (h2 : 0 ≤ sS) (h3 : sS ≤ (srcLen src : Int)) (h4 : 0 ≤ sE) :
    ∃ s' nb, bufCopy s src tOff tLen ts sS sE = .ok (s', nb) := by
  unfold bufCopy
  rw [if_neg (by omega), if_neg (by omega), if_neg (by omega)]
  split
  · exact ⟨s, 0, rfl⟩
  · exact ⟨_, _, rfl⟩

theorem move_error_shape (c : BufferCursor) (step : Int) (e : JsError)
    (h : BufferCursor.move c step = .error e) :
    e = .rangeMoveBeforeStart ∨ e = .rangeMoveBeyond := by
  simp only [BufferCursor.move] at h
  split at h
  · exact .inl (Except.error.inj h).symm
  · split at h
    · exact .inr (Except.error.inj h).symm
    · cases h

/-- C9: `copy(source, sourceStart?, sourceEnd?)` defaults `sourceStart` to
the source cursor's position (0 for a raw buffer) and `sourceEnd` to the
source's length; an explicitly passed `sourceStart` of exactly 0 is
indistinguishable from "not provided" and falls back to the source
cursor's position; the call performs the overflow check for
`sourceEnd - sourceStart` bytes against this cursor's remaining space,
advances this cursor's position by that length on success, and never
mutates the source cursor. -/
theorem copy_defaults_overflow_advance (s : Store) (c : BufferCursor) (source : CopySrc)
    (sourceStart? sourceEnd? : Option Int) (hpos : 0 ≤ c.pos)
    (hlen : c.pos ≤ (c.len : Int)) :
    (BufferCursor.copy s c source none sourceEnd? =
      BufferCursor.copy s c source (some (copyDfltStart source)) sourceEnd?) ∧
    (BufferCursor.copy s c source sourceStart? none =
      BufferCursor.copy s c source sourceStart? (some ((srcLen source : Nat) : Int))) ∧
    (BufferCursor.copy s c source (some 0) sourceEnd? =
      BufferCursor.copy s c source none sourceEnd?) ∧
    (∀ sc : BufferCursor, copySourceStart (.cur sc) (some 0) = sc.pos) ∧
    (BufferCursor.copy s c source sourceStart? sourceEnd?).src = source ∧
    (∀ sS sE : Int, sS = copySourceStart source sourceStart? →
      sE = copySourceEnd source sourceEnd? →
      ((sE - sS > (c.len : Int) ∨ (c.len : Int) - c.pos < sE - sS →
        (BufferCursor.copy s c source sourceStart? sourceEnd?).val =
          .error (.overflow c.len c.pos (sE - sS))) ∧
       (0 ≤ sS → sS ≤ (srcLen source : Int) → 0 ≤ sE →
        sE - sS ≤ (c.len : Int) - c.pos → 0 ≤ c.pos + (sE - sS) →
        (BufferCursor.copy s c source sourceStart? sourceEnd?).val = .ok () ∧
        (BufferCursor.copy s c source sourceStart? sourceEnd?).cur.pos =
          c.pos + (sE - sS)))) := by
  refine ⟨copy_congr s c source none sourceEnd? (some (copyDfltStart source)) sourceEnd?
      (copySourceStart_dflt source).symm rfl,
    copy_congr s c source sourceStart? none sourceStart? (some ((srcLen source : Nat) : Int))
      rfl (copySourceEnd_dflt source).symm,
    copy_congr s c source (some 0) sourceEnd? none sourceEnd?
      (copySourceStart_zero source) rfl,
    fun sc => by simp only [copySourceStart, copyDfltStart]; rw [if_pos trivial],
    ?_, ?_⟩
  · simp only [BufferCursor.copy]
    split
    · rfl
    · split
      · rfl
      · split <;> rfl
  · intro sS sE hS hE
    constructor
    · intro hover
      simp only [BufferCursor.copy, ← hS, ← hE]
      rw [BufferCursor.checkMove_some c (sE - sS) (by omega)]
    · intro h1 h2 h3 h4 h5
      simp only [BufferCursor.copy, ← hS, ← hE]
      rw [BufferCursor.checkMove_none c (sE - sS) hpos (by omega)]
      obtain ⟨s', nb, hbc⟩ := bufCopy_ok s source c.off c.len c.pos sS sE hpos h1 h2 h3
      rw [hbc, BufferCursor.move_ok c (sE - sS) (by omega) (by omega)]
      exact ⟨rfl, rfl⟩

/-- Witness for C9: a cursor over bytes 2..4 of the store copying from a
source cursor at position 1 of a 2-byte view, with both arguments
defaulted: one byte is copied and the position advances by 1. -/
theorem copy_defaults_overflow_advance_witness :
    (BufferCursor.copy [8, 9, 0, 0] ⟨2, 2, 0⟩ (.cur ⟨0, 2, 1⟩) none none).val = .ok () ∧
    (BufferCursor.copy [8, 9, 0, 0] ⟨2, 2, 0⟩ (.cur ⟨0, 2, 1⟩) none none).cur.pos =
      0 + ((2 : Int) - 1) :=
  ((copy_defaults_overflow_advance [8, 9, 0, 0] ⟨2, 2, 0⟩ (.cur ⟨0, 2, 1⟩) none none
    (by decide) (by decide)).2.2.2.2.2 1 2 (by decide) (by decide)).2
    (by decide) (by decide) (by decide) (by decide) (by decide)

/-- Counterexample to C10 as stated: `sourceEnd = 0` is an explicit
in-bounds argument with `sourceEnd < sourceStart`, yet the falsy default
replaces it by the source's length (4), and the resulting size-2 request
on a length-1 cursor raises an Overflow error. -/
theorem copy_negative_size_counterexample :
    (BufferCursor.copy [0] ⟨0, 1, 0⟩ (.buf [1, 2, 3, 4]) (some 2) (some 0)).val =
      .error (.overflow 1 0 2) := rfl

/-- C10 amended: for explicit in-bounds arguments with
`0 < sourceEnd < sourceStart` (so that the falsy defaulting leaves both
in effect), the internal overflow check accepts the negative size:
no Overflow error is ever raised, and whenever
`position + (sourceEnd - sourceStart) ≥ 0` the call succeeds with the
position decreased by `sourceStart - sourceEnd` and the buffer
untouched. -/
theorem copy_negative_size_accepted (s : Store) (c : BufferCursor) (source : CopySrc)
    (sS sE : Int) (hpos : 0 ≤ c.pos) (hlen : c.pos ≤ (c.len : Int))
    (h0 : 0 < sE) (hlt : sE < sS) (hsrc : sS ≤ (srcLen source : Int)) :
    (∀ L P N : Int, (BufferCursor.copy s c source (some sS) (some sE)).val ≠
      .error (.overflow L P N)) ∧
    (0 ≤ c.pos + (sE - sS) →
      (BufferCursor.copy s c source (some sS) (some sE)).val = .ok () ∧
      (BufferCursor.copy s c source (some sS) (some sE)).cur.pos = c.pos - (sS - sE) ∧
      (BufferCursor.copy s c source (some sS) (some sE)).store = s) := by
  have heffS : copySourceStart source (some sS) = sS := by
    simp only [copySourceStart]
    rw [if_neg (by omega)]
  have heffE : copySourceEnd source (some sE) = sE := by
    simp only [copySourceEnd]
    rw [if_neg (by omega)]
  have hcm : BufferCursor.checkMove c (sE - sS) = none :=
    BufferCursor.checkMove_none c (sE - sS) hpos (by omega)
  have hbc : bufCopy s source c.off c.len c.pos sS sE = .ok (s, 0) := by
    unfold bufCopy
    rw [if_neg (by omega), if_neg (by omega), if_neg (by omega), if_pos (.inr (by omega))]
  constructor
  · intro L P N
    by_cases hneg : 0 ≤ c.pos + (sE - sS)
    · simp only [BufferCursor.copy, heffS, heffE, hcm, hbc]
      rw [BufferCursor.move_ok c (sE - sS) hneg (by omega)]
      simp
    · have hmv : BufferCursor.move c (sE - sS) = .error .rangeMoveBeforeStart := by
        simp only [BufferCursor.move]
        rw [if_pos (by omega)]
      simp only [BufferCursor.copy, heffS, heffE, hcm, hbc, hmv]
      simp
  · intro hge
    simp only [BufferCursor.copy, heffS, heffE, hcm, hbc]
    rw [BufferCursor.move_ok c (sE - sS) hge (by omega)]
    refine ⟨rfl, ?_, rfl⟩
    simp only
    omega

/-- Witness for C10 amended: on a 4-byte cursor at position 2, copying
with `sourceStart = 3`, `sourceEnd = 1` from a 4-byte raw buffer raises no
error and moves the position back to 0. -/
theorem copy_negative_size_accepted_witness :
    (BufferCursor.copy [0, 0, 0, 0] ⟨0, 4, 2⟩ (.buf [1, 2, 3, 4]) (some 3) (some 1)).val =
      .ok () ∧
    (BufferCursor.copy [0, 0, 0, 0] ⟨0, 4, 2⟩ (.buf [1, 2, 3, 4]) (some 3) (some 1)).cur.pos =
      2 - ((3 : Int) - 1) ∧
    (BufferCursor.copy [0, 0, 0, 0] ⟨0, 4, 2⟩ (.buf [1, 2, 3, 4]) (some 3) (some 1)).store =
      [0, 0, 0, 0] :=
  (copy_negative_size_accepted [0, 0, 0, 0] ⟨0, 4, 2⟩ (.buf [1, 2, 3, 4]) 3 1
    (by decide) (by decide) (by decide) (by decide) (by decide)).2 (by decide)
